import Mathlib

/-!
Verification of the trace-to-pprof converter (`src/cmd/trace/pprof.go`).

The Go code is shallowly embedded: Go maps become association lists
(`List (Nat × _)`), Go slices become `List`, `uint64` becomes `Nat`,
`int64` becomes `Int` (no arithmetic here can overflow 64 bits in the
scenarios proved below; the embedding uses unbounded integers and the
claims are about structural aggregation, not modular arithmetic).
The only field of a linked event that the code reads is its timestamp
(`ev.Link.Ts`), so `Event.link` is embedded as `Option Int` holding the
linked event's timestamp (`none` = nil link).
-/

namespace TracePprof

/-- Trace event types used by the four profile pipelines; `EvOther`
stands for every other event type of the trace package. -/
inductive EvType where
  | EvGoBlockNet
  | EvGoBlockSend
  | EvGoBlockRecv
  | EvGoBlockSelect
  | EvGoBlockSync
  | EvGoBlockCond
  | EvGoBlockGC
  | EvGoSysCall
  | EvGoUnblock
  | EvGoCreate
  | EvOther
  deriving DecidableEq, Repr

/-- `trace.Frame`: one stack frame. -/
structure Frame where
  pc : Nat
  fn : String
  file : String
  line : Int
  deriving DecidableEq, Repr

/-- `trace.Event`, restricted to the fields `pprof.go` reads.
`link` is the timestamp of the linked end event (`nil` link = `none`). -/
structure Event where
  type : EvType
  g : Nat
  ts : Int
  link : Option Int
  stkID : Nat
  stk : List Frame
  deriving DecidableEq, Repr

/-- `Record` from pprof.go: one entry in pprof-like profiles. -/
structure Record where
  stk : List Frame
  n : Nat
  time : Int
  deriving DecidableEq, Repr

/-- The Go zero value of `Record`, returned by a map lookup on a missing key. -/
def Record.zero : Record := ⟨[], 0, 0⟩

/-- Reading `prof[ev.StkID]` from the Go map: the stored record, or the
zero record when the key is absent. -/
def lookupRec (prof : List (Nat × Record)) (k : Nat) : Record :=
  (prof.lookup k).getD Record.zero

/-- Writing `prof[ev.StkID] = rec` to the Go map: replace the entry in
place when the key is present, append otherwise. -/
def setRec (prof : List (Nat × Record)) (k : Nat) (r : Record) : List (Nat × Record) :=
  if (prof.lookup k).isSome then
    prof.map (fun p => if p.1 == k then (k, r) else p)
  else
    prof ++ [(k, r)]

/-- The event-type guard of ` pprofIO`: `ev.Type != trace.EvGoBlockNet`. -/
def ioTypeOk (t : EvType) : Bool := t == .EvGoBlockNet

/-- The event-type guard of `pprofBlock` (the `switch` over block reasons,
including `EvGoBlockGC` as the source does). -/
def blockTypeOk (t : EvType) : Bool :=
  match t with
  | .EvGoBlockSend | .EvGoBlockRecv | .EvGoBlockSelect
  | .EvGoBlockSync | .EvGoBlockCond | .EvGoBlockGC => true
  | _ => false

/-- The event-type guard of `pprofSyscall`: `ev.Type != trace.EvGoSysCall`. -/
def syscallTypeOk (t : EvType) : Bool := t == .EvGoSysCall

/-- The event-type guard of `pprofSched`:
`ev.Type != trace.EvGoUnblock && ev.Type != trace.EvGoCreate`. -/
def schedTypeOk (t : EvType) : Bool := t == .EvGoUnblock || t == .EvGoCreate

/-- `goroutines != nil && !goroutines[ev.G]`: the goroutine-filter skip
condition of all four loops. The optional filter set is a list of
goroutine IDs (membership models the Go set `map[uint64]bool`). -/
def gorSkip : Option (List Nat) → Event → Bool
  | some gset, ev => !gset.contains ev.g
  | none, _ => false

/-- One iteration of the aggregation loop shared by ` pprofIO`,
`pprofBlock`, `pprofSyscall` and `pprofSched`; `accept` is the
category-specific event-type guard. -/
def pprofFoldStep (accept : EvType → Bool) (goroutines : Option (List Nat))
    (prof : List (Nat × Record)) (ev : Event) : List (Nat × Record) :=
  if !accept ev.type || ev.link.isNone || ev.stkID == 0 || ev.stk.isEmpty then
    prof
  else if gorSkip goroutines ev then
    prof
  else
    let r := lookupRec prof ev.stkID
    setRec prof ev.stkID ⟨ev.stk, r.n + 1, r.time + ((ev.link.getD 0) - ev.ts)⟩

/-- The whole aggregation loop: `prof := make(map[uint64]Record)` followed
by `for _, ev := range events { ... }`. -/
def pprofFold (accept : EvType → Bool) (goroutines : Option (List Nat))
    (events : List Event) : List (Nat × Record) :=
  events.foldl (pprofFoldStep accept goroutines) []

/-- The structural data-quality guard common to all four categories:
non-nil link, non-zero stack id, non-empty stack. -/
def structOk (ev : Event) : Bool :=
  ev.link.isSome && !(ev.stkID == 0) && !ev.stk.isEmpty

/-- An event contributes to the aggregation for a category iff it passes
the type guard, the structural guard, and the goroutine filter. -/
def qualifies (accept : EvType → Bool) (goroutines : Option (List Nat)) (ev : Event) : Bool :=
  accept ev.type && structOk ev && !gorSkip goroutines ev

theorem skip_guard_eq (accept : EvType → Bool) (ev : Event) :
    (!accept ev.type || ev.link.isNone || ev.stkID == 0 || ev.stk.isEmpty)
      = !(accept ev.type && structOk ev) := by
  cases accept ev.type <;> cases hl : ev.link <;>
    cases hid : ev.stkID == 0 <;> cases hstk : ev.stk.isEmpty <;>
    simp_all [structOk]

theorem pprofFoldStep_skip {accept goroutines ev}
    (h : qualifies accept goroutines ev = false) (prof : List (Nat × Record)) :
    pprofFoldStep accept goroutines prof ev = prof := by
  unfold pprofFoldStep
  rw [skip_guard_eq]
  cases hq : (accept ev.type && structOk ev)
  · simp
  · cases hg : gorSkip goroutines ev
    · exfalso
      simp [qualifies, hg] at h
      simp_all
    · simp [hg]

theorem pprofFoldStep_hit {accept goroutines ev}
    (h : qualifies accept goroutines ev = true) (prof : List (Nat × Record)) :
    pprofFoldStep accept goroutines prof ev =
      setRec prof ev.stkID
        ⟨ev.stk, (lookupRec prof ev.stkID).n + 1,
         (lookupRec prof ev.stkID).time + ((ev.link.getD 0) - ev.ts)⟩ := by
  unfold pprofFoldStep
  rw [skip_guard_eq]
  simp only [qualifies, Bool.and_eq_true, Bool.not_eq_true'] at h
  obtain ⟨⟨ha, hs⟩, hg⟩ := h
  simp [ha, hs, hg]

theorem pprofFold_filter_structOk (accept : EvType → Bool)
    (goroutines : Option (List Nat)) (init : List (Nat × Record)) (events : List Event) :
    events.foldl (pprofFoldStep accept goroutines) init
      = (events.filter structOk).foldl (pprofFoldStep accept goroutines) init := by
  induction events generalizing init with
  | nil => rfl
  | cons e l ih =>
    by_cases h : structOk e = true
    · rw [List.filter_cons, if_pos h, List.foldl_cons, List.foldl_cons]
      exact ih _
    · rw [Bool.not_eq_true] at h
      have hq : qualifies accept goroutines e = false := by simp [qualifies, h]
      rw [List.filter_cons, if_neg (by simp [h]), List.foldl_cons,
        pprofFoldStep_skip hq]
      exact ih _

/-! ### Characterizing the aggregation per key -/

/-- The qualifying events carrying stack identifier `k`. -/
def keyEvs (accept : EvType → Bool) (goroutines : Option (List Nat)) (k : Nat)
    (events : List Event) : List Event :=
  events.filter (fun ev => qualifies accept goroutines ev && ev.stkID == k)

/-- The per-event duration: linked-event timestamp minus event timestamp. -/
def evDur (ev : Event) : Int := (ev.link.getD 0) - ev.ts

/-- The record a nonempty run of qualifying events folds to: the
last-seen stack, the number of events, and the summed durations. -/
def aggOf (l : List Event) : Record :=
  ⟨l.getLast?.elim [] Event.stk, l.length, (l.map evDur).sum⟩

theorem lookup_cons_pair {K V : Type} [BEq K] [LawfulBEq K] [DecidableEq K] (a k : K) (b : V)
    (t : List (K × V)) :
    ((k, b) :: t).lookup a = if a = k then some b else t.lookup a := by
  by_cases h : a = k
  · simp [List.lookup, h]
  · have hb : (a == k) = false := by simp [h]
    simp [List.lookup, hb, h]

theorem lookup_map_replace {V : Type} (k k' : Nat) (r : V) (prof : List (Nat × V)) :
    (prof.map (fun p => if p.1 == k then (k, r) else p)).lookup k'
      = if k' = k then (if (prof.lookup k).isSome then some r else none)
        else prof.lookup k' := by
  induction prof with
  | nil => by_cases h : k' = k <;> simp [h]
  | cons p t ih =>
    obtain ⟨a, b⟩ := p
    simp only [List.map_cons]
    by_cases hak : a = k
    · subst hak
      rw [if_pos (by simp)]
      simp only [lookup_cons_pair, ih]
      by_cases h1 : k' = a <;> simp [h1]
    · have hka : ¬k = a := fun he => hak he.symm
      rw [if_neg (by simp [hak])]
      simp only [lookup_cons_pair, ih]
      rw [if_neg hka]
      by_cases h1 : k' = a
      · have h2 : ¬k' = k := fun he => hak (h1.symm.trans he)
        simp [h1, h2, hak, hka]
      · by_cases h2 : k' = k
        · simp [h1, h2, hak, hka]
        · simp [h1, h2]

theorem lookup_append_fresh {K V : Type} [BEq K] [LawfulBEq K] [DecidableEq K] (k k' : K) (r : V)
    (prof : List (K × V)) (h : prof.lookup k = none) :
    (prof ++ [(k, r)]).lookup k' = if k' = k then some r else prof.lookup k' := by
  induction prof with
  | nil => by_cases hk : k' = k <;> simp [lookup_cons_pair, hk]
  | cons p t ih =>
    obtain ⟨a, b⟩ := p
    rw [lookup_cons_pair] at h
    by_cases hka : k = a
    · rw [if_pos hka] at h
      exact absurd h (by simp)
    · rw [if_neg hka] at h
      have hak : ¬a = k := fun he => hka he.symm
      simp only [List.cons_append, lookup_cons_pair, ih h]
      by_cases h1 : k' = a
      · have h2 : ¬k' = k := fun he => hka (he.symm.trans h1)
        simp [h1, h2, hak]
      · simp [h1]

/-- Writing then reading the Go map: `setRec` stores `r` at `k` and leaves
every other key unchanged. -/
theorem lookup_setRec (prof : List (Nat × Record)) (k : Nat) (r : Record) (k' : Nat) :
    (setRec prof k r).lookup k' = if k' = k then some r else prof.lookup k' := by
  unfold setRec
  rcases hs : (prof.lookup k).isSome
  · rw [if_neg (by simp)]
    exact lookup_append_fresh k k' r prof
      (Option.not_isSome_iff_eq_none.mp (by simp [hs]))
  · rw [if_pos rfl, lookup_map_replace, hs]
    simp

/-- The per-key characterization of the aggregation loop: the record
stored for key `k` is exactly the fold of the qualifying events whose
stack identifier is `k` — absent when there are none, otherwise the
last-seen stack, the event count and the summed durations. -/
theorem pprofFold_lookup (accept : EvType → Bool) (goroutines : Option (List Nat))
    (events : List Event) (k : Nat) :
    (pprofFold accept goroutines events).lookup k =
      if (keyEvs accept goroutines k events).isEmpty then none
      else some (aggOf (keyEvs accept goroutines k events)) := by
  induction events using List.reverseRecOn with
  | nil => rfl
  | append_singleton l e ih =>
    rw [pprofFold, List.foldl_append, List.foldl_cons, List.foldl_nil]
    rw [show List.foldl (pprofFoldStep accept goroutines) [] l
          = pprofFold accept goroutines l from rfl]
    have hkey : keyEvs accept goroutines k (l ++ [e])
        = keyEvs accept goroutines k l
          ++ (if qualifies accept goroutines e && e.stkID == k then [e] else []) := by
      rw [keyEvs, List.filter_append, keyEvs]
      congr 1
      rcases h : qualifies accept goroutines e && e.stkID == k <;> simp [h]
    rcases hq : qualifies accept goroutines e
    · rw [pprofFoldStep_skip hq, ih, hkey, hq]
      simp
    · rw [pprofFoldStep_hit hq, lookup_setRec]
      by_cases hsk : e.stkID = k
      · subst hsk
        rw [if_pos rfl, hkey, hq]
        simp only [Bool.true_and, beq_self_eq_true, if_pos]
        rw [lookupRec, ih]
        rcases hemp : (keyEvs accept goroutines e.stkID l).isEmpty
        · have hne : ¬(keyEvs accept goroutines e.stkID l ++ [e]).isEmpty = true := by
            simp
          rw [if_neg (show ¬(false = true) by simp), if_neg hne]
          simp [aggOf, evDur, List.getLast?_concat, List.sum_append]
        · have hnil : keyEvs accept goroutines e.stkID l = [] := by
            simpa using hemp
          simp [hnil, aggOf, Record.zero, evDur]
      · rw [if_neg (fun he => hsk he.symm), ih, hkey, hq]
        have hb : (e.stkID == k) = false := by simp [hsk]
        rw [hb]
        simp

/-! ### C4: per-event record updates; representative stack -/

def frameC4a : Frame := ⟨100, "fnA", "a.go", 1⟩

def frameC4b : Frame := ⟨200, "fnB", "b.go", 2⟩

/-- First event for stack id 7, stack `[frameC4a]`. -/
def evC4a : Event := ⟨.EvGoBlockNet, 1, 0, some 10, 7, [frameC4a]⟩

/-- Second event for stack id 7, structurally different stack `[frameC4b]`. -/
def evC4b : Event := ⟨.EvGoBlockNet, 1, 0, some 20, 7, [frameC4b]⟩

/-- C4 counterexample: two qualifying events share stack identifier 7 but
carry different stacks; the aggregated record holds the second event's
stack, not the first-seen stack the claim promises (the loop overwrites
`rec.stk` on every event, so the last write wins). -/
theorem first_seen_stack_refuted :
    qualifies ioTypeOk none evC4a = true ∧
    qualifies ioTypeOk none evC4b = true ∧
    evC4a.stkID = evC4b.stkID ∧
    ((pprofFold ioTypeOk none [evC4a, evC4b]).lookup 7).map Record.stk
      = some evC4b.stk ∧
    evC4b.stk ≠ evC4a.stk := by
  decide

/-- C4 amended: for every category guard, filter and event sequence, the
record stored for a stack identifier aggregates exactly the qualifying
events carrying that identifier: the count is their number (one increment
per event), the cumulative duration is the sum of their
(linked-timestamp − timestamp) differences, and the representative stack
is the LAST-seen stack for that identifier (when all events sharing an
identifier carry structurally identical stacks, as the source assumes,
this coincides with the first-seen stack). -/
theorem record_per_key_aggregates (accept : EvType → Bool)
    (goroutines : Option (List Nat)) (events : List Event) (k : Nat) :
    (pprofFold accept goroutines events).lookup k =
      if (keyEvs accept goroutines k events).isEmpty then none
      else some ⟨(keyEvs accept goroutines k events).getLast?.elim [] Event.stk,
                 (keyEvs accept goroutines k events).length,
                 ((keyEvs accept goroutines k events).map evDur).sum⟩ :=
  pprofFold_lookup accept goroutines events k

/-! ### C7: order-independence of aggregation -/

theorem lookup_eq_none_of_not_mem_keys {K V : Type} [BEq K] [LawfulBEq K] [DecidableEq K]
    (k : K) (l : List (K × V)) (h : k ∉ l.map Prod.fst) : l.lookup k = none := by
  induction l with
  | nil => rfl
  | cons p t ih =>
    obtain ⟨a, b⟩ := p
    simp only [List.map_cons, List.mem_cons] at h
    push_neg at h
    rw [lookup_cons_pair, if_neg h.1]
    exact ih h.2

theorem not_mem_keys_of_lookup_eq_none {K V : Type} [BEq K] [LawfulBEq K] [DecidableEq K]
    (k : K) (l : List (K × V)) (h : l.lookup k = none) : k ∉ l.map Prod.fst := by
  induction l with
  | nil => simp
  | cons p t ih =>
    obtain ⟨a, b⟩ := p
    rw [lookup_cons_pair] at h
    by_cases hk : k = a
    · rw [if_pos hk] at h
      cases h
    · rw [if_neg hk] at h
      simp only [List.map_cons, List.mem_cons]
      push_neg
      exact ⟨hk, ih h⟩

theorem mem_of_lookup_eq_some {K V : Type} [BEq K] [LawfulBEq K] [DecidableEq K] {k : K} {v : V}
    (l : List (K × V)) (h : l.lookup k = some v) : (k, v) ∈ l := by
  induction l with
  | nil => cases h
  | cons p t ih =>
    obtain ⟨a, b⟩ := p
    rw [lookup_cons_pair] at h
    by_cases hk : k = a
    · rw [if_pos hk] at h
      obtain rfl : b = v := by injection h
      subst hk
      exact List.mem_cons_self _ _
    · rw [if_neg hk] at h
      exact List.mem_cons_of_mem _ (ih h)

theorem lookup_erase_ne {V : Type} [DecidableEq V] {k a : Nat} {v : V}
    (hk : ¬k = a) (l : List (Nat × V)) :
    (l.erase (a, v)).lookup k = l.lookup k := by
  induction l with
  | nil => rfl
  | cons p t ih =>
    obtain ⟨pk, pv⟩ := p
    by_cases hp : (pk, pv) = (a, v)
    · rw [hp, List.erase_cons_head, lookup_cons_pair]
      obtain ⟨rfl, rfl⟩ : pk = a ∧ pv = v := by
        injection hp with h1 h2
        exact ⟨h1, h2⟩
      rw [if_neg hk]
    · rw [List.erase_cons_tail (by simpa using hp), lookup_cons_pair,
        lookup_cons_pair, ih]

theorem lookup_erase_self {V : Type} [DecidableEq V] {a : Nat} {v : V}
    (l : List (Nat × V)) (hnd : (l.map Prod.fst).Nodup) (hm : (a, v) ∈ l) :
    (l.erase (a, v)).lookup a = none := by
  induction l with
  | nil => cases hm
  | cons p t ih =>
    obtain ⟨pk, pv⟩ := p
    simp only [List.map_cons, List.nodup_cons] at hnd
    by_cases hp : (pk, pv) = (a, v)
    · rw [hp, List.erase_cons_head]
      obtain ⟨rfl, rfl⟩ : pk = a ∧ pv = v := by
        injection hp with h1 h2
        exact ⟨h1, h2⟩
      exact lookup_eq_none_of_not_mem_keys _ _ hnd.1
    · have hmt : (a, v) ∈ t := by
        rcases List.mem_cons.mp hm with he | hmt
        · exact absurd he.symm hp
        · exact hmt
      have hpa : ¬a = pk := by
        intro he
        exact hnd.1 (he ▸ List.mem_map.mpr ⟨(a, v), hmt, rfl⟩)
      rw [List.erase_cons_tail (by simpa using hp), lookup_cons_pair, if_neg hpa]
      exact ih hnd.2 hmt

theorem perm_cons_erase_pair {V : Type} [DecidableEq V] {x : Nat × V} :
    ∀ {l : List (Nat × V)}, x ∈ l → l.Perm (x :: l.erase x) := by
  intro l
  induction l with
  | nil => intro h; cases h
  | cons p t ih =>
    intro h
    by_cases hp : p = x
    · subst hp
      rw [List.erase_cons_head]
    · have hxt : x ∈ t := by
        rcases List.mem_cons.mp h with he | ht
        · exact absurd he.symm hp
        · exact ht
      rw [List.erase_cons_tail (by simpa using hp)]
      exact ((ih hxt).cons p).trans (List.Perm.swap x p _)

/-- Two association lists with duplicate-free keys and identical lookups
are permutations of one another. -/
theorem assoc_perm_of_lookup_eq {V : Type} [DecidableEq V] :
    ∀ (l1 l2 : List (Nat × V)), (l1.map Prod.fst).Nodup →
      (l2.map Prod.fst).Nodup → (∀ k, l1.lookup k = l2.lookup k) → l1.Perm l2 := by
  intro l1
  induction l1 with
  | nil =>
    intro l2 _ _ h
    cases l2 with
    | nil => exact List.Perm.refl _
    | cons p t =>
      obtain ⟨a, b⟩ := p
      have := (h a).symm
      rw [lookup_cons_pair, if_pos rfl] at this
      cases this
  | cons p t ih =>
    intro l2 h1 h2 h
    obtain ⟨a, b⟩ := p
    simp only [List.map_cons, List.nodup_cons] at h1
    have ha : l2.lookup a = some b := by
      have hh := h a
      rw [lookup_cons_pair, if_pos rfl] at hh
      exact hh.symm
    have hmem : (a, b) ∈ l2 := mem_of_lookup_eq_some l2 ha
    have hperm2 : l2.Perm ((a, b) :: l2.erase (a, b)) := perm_cons_erase_pair hmem
    have hnd2' : ((l2.erase (a, b)).map Prod.fst).Nodup :=
      h2.sublist ((List.erase_sublist _ _).map Prod.fst)
    have hlk : ∀ k, t.lookup k = (l2.erase (a, b)).lookup k := by
      intro k
      by_cases hk : k = a
      · subst hk
        rw [lookup_erase_self l2 h2 hmem]
        exact lookup_eq_none_of_not_mem_keys _ _ h1.1
      · rw [lookup_erase_ne hk]
        have hh := h k
        rw [lookup_cons_pair, if_neg hk] at hh
        exact hh
    exact ((ih _ h1.2 hnd2' hlk).cons (a, b)).trans hperm2.symm

theorem keys_setRec (prof : List (Nat × Record)) (k : Nat) (r : Record) :
    (setRec prof k r).map Prod.fst
      = if (prof.lookup k).isSome then prof.map Prod.fst
        else prof.map Prod.fst ++ [k] := by
  unfold setRec
  rcases hs : (prof.lookup k).isSome
  · simp
  · rw [if_pos rfl, if_pos rfl, List.map_map]
    apply List.map_congr_left
    intro p _
    by_cases hp : p.1 = k <;> simp [hp]

theorem pprofFold_keys_nodup (accept : EvType → Bool)
    (goroutines : Option (List Nat)) (events : List Event) :
    ((pprofFold accept goroutines events).map Prod.fst).Nodup := by
  induction events using List.reverseRecOn with
  | nil => simp [pprofFold]
  | append_singleton l e ih =>
    rw [pprofFold, List.foldl_append, List.foldl_cons, List.foldl_nil]
    rw [show List.foldl (pprofFoldStep accept goroutines) [] l
          = pprofFold accept goroutines l from rfl]
    rcases hq : qualifies accept goroutines e
    · rw [pprofFoldStep_skip hq]
      exact ih
    · rw [pprofFoldStep_hit hq, keys_setRec]
      rcases hs : ((pprofFold accept goroutines l).lookup e.stkID).isSome
      · have hnone : (pprofFold accept goroutines l).lookup e.stkID = none :=
          Option.not_isSome_iff_eq_none.mp (by simp [hs])
        have hnotin : e.stkID ∉ (pprofFold accept goroutines l).map Prod.fst :=
          not_mem_keys_of_lookup_eq_none _ _ hnone
        rw [if_neg (by simp)]
        simp [List.nodup_append, ih, hnotin]
      · rw [if_pos rfl]
        exact ih

theorem lookup_map_snd {V W : Type} (f : V → W) (k : Nat) (l : List (Nat × V)) :
    (l.map (fun p => (p.1, f p.2))).lookup k = (l.lookup k).map f := by
  induction l with
  | nil => rfl
  | cons p t ih =>
    obtain ⟨a, b⟩ := p
    simp only [List.map_cons, lookup_cons_pair]
    by_cases h : k = a <;> simp [h, ih]

/-- The multiset the spec talks about: the aggregation result viewed as
(stack identifier, occurrence count, cumulative duration) triples. -/
def aggTriples (accept : EvType → Bool) (goroutines : Option (List Nat))
    (events : List Event) : List (Nat × Nat × Int) :=
  (pprofFold accept goroutines events).map (fun p => (p.1, p.2.n, p.2.time))

theorem aggTriples_lookup (accept : EvType → Bool) (goroutines : Option (List Nat))
    (events : List Event) (k : Nat) :
    (aggTriples accept goroutines events).lookup k =
      if (keyEvs accept goroutines k events).isEmpty then none
      else some ((keyEvs accept goroutines k events).length,
                 ((keyEvs accept goroutines k events).map evDur).sum) := by
  have hm := lookup_map_snd (fun r : Record => (r.n, r.time)) k
    (pprofFold accept goroutines events)
  rw [aggTriples,
    show (fun p : Nat × Record => (p.1, p.2.n, p.2.time))
       = (fun p : Nat × Record => (p.1, (fun r : Record => (r.n, r.time)) p.2)) from rfl,
    hm, pprofFold_lookup]
  rcases h : (keyEvs accept goroutines k events).isEmpty <;> simp [aggOf]

theorem aggTriples_keys_nodup (accept : EvType → Bool)
    (goroutines : Option (List Nat)) (events : List Event) :
    ((aggTriples accept goroutines events).map Prod.fst).Nodup := by
  rw [aggTriples, List.map_map]
  exact pprofFold_keys_nodup accept goroutines events

theorem aggTriples_perm (accept : EvType → Bool) (goroutines : Option (List Nat))
    {events events' : List Event} (h : events.Perm events') :
    (aggTriples accept goroutines events).Perm (aggTriples accept goroutines events') := by
  apply assoc_perm_of_lookup_eq _ _ (aggTriples_keys_nodup _ _ _)
    (aggTriples_keys_nodup _ _ _)
  intro k
  rw [aggTriples_lookup, aggTriples_lookup]
  have hperm : (keyEvs accept goroutines k events).Perm
      (keyEvs accept goroutines k events') := h.filter _
  have hlen := hperm.length_eq
  have hsum := (hperm.map evDur).sum_eq
  have hemp : (keyEvs accept goroutines k events).isEmpty
      = (keyEvs accept goroutines k events').isEmpty := by
    cases hA : keyEvs accept goroutines k events with
    | nil =>
      cases hB : keyEvs accept goroutines k events' with
      | nil => rfl
      | cons y ys => rw [hA, hB] at hlen; simp at hlen
    | cons x xs =>
      cases hB : keyEvs accept goroutines k events' with
      | nil => rw [hA, hB] at hlen; simp at hlen
      | cons y ys => rfl
  rw [hemp, hlen, hsum]

/-- C7: permuting the input event sequence leaves the multiset of
(stack identifier, count, cumulative duration) triples unchanged, for
each of the four profile categories. -/
theorem aggregation_order_independent (goroutines : Option (List Nat))
    (events events' : List Event) (h : events.Perm events') :
    (aggTriples ioTypeOk goroutines events).Perm
        (aggTriples ioTypeOk goroutines events')
    ∧ (aggTriples blockTypeOk goroutines events).Perm
        (aggTriples blockTypeOk goroutines events')
    ∧ (aggTriples syscallTypeOk goroutines events).Perm
        (aggTriples syscallTypeOk goroutines events')
    ∧ (aggTriples schedTypeOk goroutines events).Perm
        (aggTriples schedTypeOk goroutines events') :=
  ⟨aggTriples_perm _ _ h, aggTriples_perm _ _ h,
   aggTriples_perm _ _ h, aggTriples_perm _ _ h⟩

def evC7a : Event := ⟨.EvGoBlockNet, 1, 0, some 30, 3, [⟨300, "fnC", "c.go", 3⟩]⟩

def evC7b : Event := ⟨.EvGoSysCall, 2, 5, some 25, 4, [⟨400, "fnD", "d.go", 4⟩]⟩

/-- Witness for C7 at a concrete two-element permutation. -/
theorem aggregation_order_independent_witness :
    (aggTriples ioTypeOk none [evC7a, evC7b]).Perm
        (aggTriples ioTypeOk none [evC7b, evC7a])
    ∧ (aggTriples blockTypeOk none [evC7a, evC7b]).Perm
        (aggTriples blockTypeOk none [evC7b, evC7a])
    ∧ (aggTriples syscallTypeOk none [evC7a, evC7b]).Perm
        (aggTriples syscallTypeOk none [evC7b, evC7a])
    ∧ (aggTriples schedTypeOk none [evC7a, evC7b]).Perm
        (aggTriples schedTypeOk none [evC7b, evC7a]) :=
  aggregation_order_independent none [evC7a, evC7b] [evC7b, evC7a]
    (List.Perm.swap evC7b evC7a [])

/-! ### The goroutine filter (`pprofMatchingGoroutines`) -/

/-- `strconv.ParseUint(id, 10, 64)`: succeeds exactly on nonempty strings
of decimal digits whose value fits in 64 bits (Go reports a syntax error
on an empty string or a non-digit, and a range error on overflow; the
embedding collapses both error kinds to `none`, as the caller only
branches on success). -/
def parseUint64 (s : String) : Option Nat :=
  if s.isEmpty then none
  else if s.data.all (fun c => c.isDigit) then
    let n := s.data.foldl (fun acc c => acc * 10 + (c.toNat - 48)) 0
    if n < 2 ^ 64 then some n else none
  else none

/-- Modelled from the spec: one goroutine descriptor as produced by
`analyzeGoroutines` into the global `gs` (file `goroutines.go`, which is
not among the studied sources); only the two fields
`pprofMatchingGoroutines` reads are kept: the goroutine ID and the
creation program counter `PC`. -/
structure GDesc where
  ID : Nat
  PC : Nat
  deriving DecidableEq, Repr

/-- `pprofMatchingGoroutines` from pprof.go. The Go function returns the
pair (filter set, error); the nil map is `none`, a non-nil set is `some`
of the list of inserted goroutine IDs. The goroutine table `gs` is passed
explicitly instead of read from the global populated by
`analyzeGoroutines`. -/
def pprofMatchingGoroutines (id : String) (gs : List GDesc) :
    Option (List Nat) × Option String :=
  if id = "" then (none, none)
  else
    match parseUint64 id with
    | none => (none, some ("invalid goroutine type: " ++ id))
    | some pc =>
      let res := (gs.filter (fun g => g.PC == pc)).map (fun g => g.ID)
      if res.length == 0 && !(id == "") then
        (none, some ("failed to find matching goroutines for id: " ++ id))
      else
        ((if res.isEmpty then none else some res), none)

/-- The branch of `pprofMatchingGoroutines` taken when the identifier is
nonempty and parses: written out without the intermediate `match`. -/
theorem pprofMatchingGoroutines_parsed (id : String) (gs : List GDesc) (pc : Nat)
    (hne : ¬id = "") (hp : parseUint64 id = some pc) :
    pprofMatchingGoroutines id gs =
      (if ((gs.filter (fun g => g.PC == pc)).map (fun g => g.ID)).length == 0
          && !(id == "") then
         (none, some ("failed to find matching goroutines for id: " ++ id))
       else
         ((if ((gs.filter (fun g => g.PC == pc)).map (fun g => g.ID)).isEmpty
           then none
           else some ((gs.filter (fun g => g.PC == pc)).map (fun g => g.ID))),
          none)) := by
  rw [pprofMatchingGoroutines, if_neg hne, hp]

/-- C6: the goroutine filter's four outcomes: empty identifier → no
filter and no error; unparsable identifier → invalid-argument error;
parsed but matching no goroutine's creation PC → not-found error (an
error, hence distinct from the empty-identifier success); otherwise the
set of goroutine IDs whose creation PC equals the parsed identifier. -/
theorem goroutine_filter_outcomes (id : String) (gs : List GDesc) :
    (id = "" → pprofMatchingGoroutines id gs = (none, none))
    ∧ (id ≠ "" → parseUint64 id = none →
        pprofMatchingGoroutines id gs
          = (none, some ("invalid goroutine type: " ++ id)))
    ∧ (∀ pc, parseUint64 id = some pc → (∀ g ∈ gs, g.PC ≠ pc) →
        pprofMatchingGoroutines id gs
          = (none, some ("failed to find matching goroutines for id: " ++ id)))
    ∧ (∀ pc, parseUint64 id = some pc → (∃ g ∈ gs, g.PC = pc) →
        pprofMatchingGoroutines id gs
          = (some ((gs.filter (fun g => g.PC == pc)).map (fun g => g.ID)),
             none)) := by
  refine ⟨fun he => ?_, fun hne hp => ?_, fun pc hp hno => ?_, fun pc hp hyes => ?_⟩
  · rw [pprofMatchingGoroutines, if_pos he]
  · rw [pprofMatchingGoroutines, if_neg hne, hp]
  · have hne : ¬id = "" := by
      intro he
      rw [he] at hp
      cases hp
    rw [pprofMatchingGoroutines_parsed id gs pc hne hp]
    have hnil : gs.filter (fun g => g.PC == pc) = [] := by
      rw [List.filter_eq_nil_iff]
      intro g hg
      simpa using hno g hg
    rw [hnil]
    simp [hne]
  · have hne : ¬id = "" := by
      intro he
      rw [he] at hp
      cases hp
    rw [pprofMatchingGoroutines_parsed id gs pc hne hp]
    obtain ⟨g, hg, hgpc⟩ := hyes
    have hmem : g ∈ gs.filter (fun g => g.PC == pc) :=
      List.mem_filter.mpr ⟨hg, by simp [hgpc]⟩
    have hpos : ((gs.filter (fun g => g.PC == pc)).map (fun g => g.ID)).length ≠ 0 := by
      simp only [List.length_map, ne_eq, List.length_eq_zero]
      intro hnil
      rw [hnil] at hmem
      cases hmem
    have hemp : ¬((gs.filter (fun g => g.PC == pc)).map (fun g => g.ID)).isEmpty = true := by
      rw [List.isEmpty_iff]
      intro hnil
      exact hpos (by rw [hnil]; rfl)
    have hc : (((gs.filter (fun g => g.PC == pc)).map (fun g => g.ID)).length == 0
        && !(id == "")) = false := by
      have hb : (((gs.filter (fun g => g.PC == pc)).map (fun g => g.ID)).length == 0)
          = false := by
        rw [beq_eq_false_iff_ne]
        exact hpos
      rw [hb, Bool.false_and]
    rw [if_neg (show ¬_ = true by rw [hc]; simp), if_neg hemp]

/-- Witness for C6, one concrete input per outcome. -/
theorem goroutine_filter_outcomes_witness :
    pprofMatchingGoroutines "" [⟨1, 7⟩] = (none, none)
    ∧ pprofMatchingGoroutines "abc" [⟨1, 7⟩]
        = (none, some "invalid goroutine type: abc")
    ∧ pprofMatchingGoroutines "5" [⟨1, 7⟩]
        = (none, some "failed to find matching goroutines for id: 5")
    ∧ pprofMatchingGoroutines "7" [⟨1, 7⟩] = (some [1], none) :=
  ⟨(goroutine_filter_outcomes "" [⟨1, 7⟩]).1 rfl,
   (goroutine_filter_outcomes "abc" [⟨1, 7⟩]).2.1 (by decide) (by decide),
   (goroutine_filter_outcomes "5" [⟨1, 7⟩]).2.2.1 5 (by decide) (by decide),
   (goroutine_filter_outcomes "7" [⟨1, 7⟩]).2.2.2 7 (by decide)
     ⟨⟨1, 7⟩, by decide, rfl⟩⟩

/-- C10: the goroutine filter never returns a non-nil empty set: a
returned set is nonempty and comes with no error, an error comes with no
set, and the empty identifier yields (no set, no error). -/
theorem goroutine_filter_no_empty_set (id : String) (gs : List GDesc) :
    (∀ s, (pprofMatchingGoroutines id gs).1 = some s →
        s ≠ [] ∧ (pprofMatchingGoroutines id gs).2 = none)
    ∧ ((pprofMatchingGoroutines id gs).2.isSome →
        (pprofMatchingGoroutines id gs).1 = none)
    ∧ (id = "" → pprofMatchingGoroutines id gs = (none, none)) := by
  by_cases he : id = ""
  · rw [pprofMatchingGoroutines, if_pos he]
    refine ⟨?_, ?_, ?_⟩
    · intro s hs
      simp at hs
    · intro _
      rfl
    · intro _
      rfl
  · cases hp : parseUint64 id with
    | none =>
      rw [pprofMatchingGoroutines, if_neg he, hp]
      refine ⟨?_, ?_, ?_⟩
      · intro s hs
        simp at hs
      · intro _
        rfl
      · intro h
        exact absurd h he
    | some pc =>
      rw [pprofMatchingGoroutines_parsed id gs pc he hp]
      by_cases hlen : (((gs.filter (fun g => g.PC == pc)).map (fun g => g.ID)).length == 0
          && !(id == "")) = true
      · rw [if_pos hlen]
        refine ⟨?_, ?_, ?_⟩
        · intro s hs
          simp at hs
        · intro _
          rfl
        · intro h
          exact absurd h he
      · rw [if_neg hlen]
        have hres_ne : (gs.filter (fun g => g.PC == pc)).map (fun g => g.ID) ≠ [] := by
          intro hnil
          apply hlen
          rw [hnil]
          simp [he]
        have hie : ((gs.filter (fun g => g.PC == pc)).map (fun g => g.ID)).isEmpty
            = false := by
          cases hx : ((gs.filter (fun g => g.PC == pc)).map (fun g => g.ID)).isEmpty with
          | false => simp [hx]
          | true => exact absurd (List.isEmpty_iff.mp hx) hres_ne
        rw [hie, if_neg (by simp)]
        refine ⟨?_, ?_, ?_⟩
        · intro s hs
          refine ⟨?_, rfl⟩
          obtain rfl : (gs.filter (fun g => g.PC == pc)).map (fun g => g.ID) = s := by
            injection hs
          exact hres_ne
        · intro h
          simp at h
        · intro h
          exact absurd h he

/-- Witness for C10: a matching, an erroring and an empty-id concrete call. -/
theorem goroutine_filter_no_empty_set_witness :
    ([1] ≠ [] ∧ (pprofMatchingGoroutines "7" [⟨1, 7⟩]).2 = none)
    ∧ (pprofMatchingGoroutines "abc" []).1 = none
    ∧ pprofMatchingGoroutines "" [] = (none, none) :=
  ⟨(goroutine_filter_no_empty_set "7" [⟨1, 7⟩]).1 [1] (by decide),
   (goroutine_filter_no_empty_set "abc" []).2.1 (by decide),
   (goroutine_filter_no_empty_set "" []).2.2 rfl⟩

/-! ### The render service (`serveSVGProfile`), rendered branch

The file system is embedded as the list of file paths present; creating
a file appends its path, `os.Remove` erases it. The external renderer
(`go tool pprof -svg -output <svg> <tmp>`) follows the spec's collaborator
contract: it produces either a rendered file or a non-zero exit with
diagnostic text, so on failure no output file is created. Deferred
cleanups run in LIFO order at handler exit, as in Go. -/

/-- How far a rendered-branch request gets before failing
(`ok` = full success). -/
inductive RenderOutcome where
  | tempFailed
  | profFailed
  | flushFailed
  | closeFailed
  | execFailed
  | ok
  deriving DecidableEq, Repr

/-- The rendered branch of `serveSVGProfile`, tracking only the file
system: `fs` are the files present at entry and `tmp` the fresh name
`ioutil.TempFile` would pick; the result is the set of files present
after the handler (and its deferred cleanups) finishes. -/
def serveSVGRendered (fs : List String) (tmp : String) :
    RenderOutcome → List String
  | .tempFailed => fs
  | .profFailed => (fs ++ [tmp]).erase tmp
  | .flushFailed => (fs ++ [tmp]).erase tmp
  | .closeFailed => (fs ++ [tmp]).erase tmp
  | .execFailed => (fs ++ [tmp]).erase tmp
  | .ok => ((((fs ++ [tmp]) ++ [tmp ++ ".svg"]).erase (tmp ++ ".svg")).erase tmp)

theorem erase_append_singleton {a : String} (l : List String) (h : a ∉ l) :
    (l ++ [a]).erase a = l := by
  rw [List.erase_append_right _ h, List.erase_cons_head, List.append_nil]

/-- C8: after a rendered-branch request with any outcome, neither the
temporary profile file nor the derived SVG artifact remains: the file
system is exactly what it was at entry. -/
theorem rendered_branch_cleans_up (fs : List String) (tmp : String)
    (outcome : RenderOutcome) (htmp : tmp ∉ fs) (hsvg : tmp ++ ".svg" ∉ fs) :
    serveSVGRendered fs tmp outcome = fs := by
  have hne : tmp ++ ".svg" ≠ tmp := by
    intro he
    have hlen := congrArg String.length he
    have h4 : (".svg" : String).length = 4 := rfl
    rw [String.length_append, h4] at hlen
    omega
  cases outcome with
  | tempFailed => rfl
  | profFailed => exact erase_append_singleton fs htmp
  | flushFailed => exact erase_append_singleton fs htmp
  | closeFailed => exact erase_append_singleton fs htmp
  | execFailed => exact erase_append_singleton fs htmp
  | ok =>
    rw [serveSVGRendered, erase_append_singleton _ (by
      intro hm
      rcases List.mem_append.mp hm with hm | hm
      · exact hsvg hm
      · rcases List.mem_singleton.mp hm with he
        exact hne he)]
    exact erase_append_singleton fs htmp

/-- A concrete temp-file name for the C8 witness. -/
def tmpName : String := "block123456"

/-- Witness for C8: a concrete request on an empty file system. -/
theorem rendered_branch_cleans_up_witness :
    tmpName ∉ ([] : List String) ∧ serveSVGRendered [] tmpName .ok = [] :=
  ⟨by simp, rendered_branch_cleans_up [] tmpName .ok (by simp) (by simp)⟩

/-! ### The profile builder (`buildProfile`)

`profile.Profile` and its parts, restricted to the fields `buildProfile`
writes. Go pointers (`*profile.Function` in a `Line`, `*profile.Location`
in a sample's stack) are embedded as the ID of the pointed-to entry:
`buildProfile` gives every created entry a fresh positive ID, so IDs are
in bijection with the pointers it creates. -/

structure PValueType where
  type : String
  unit : String
  deriving DecidableEq, Repr

structure PFunction where
  id : Nat
  name : String
  systemName : String
  filename : String
  deriving DecidableEq, Repr

/-- One `profile.Line`: a function reference (by ID) and a line number. -/
structure PLine where
  functionId : Nat
  line : Int
  deriving DecidableEq, Repr

structure PLocation where
  id : Nat
  address : Nat
  line : List PLine
  deriving DecidableEq, Repr

/-- One `profile.Sample`: the two values and the stack as Location IDs. -/
structure PSample where
  value : List Int
  locationIds : List Nat
  deriving DecidableEq, Repr

structure PProfile where
  periodType : PValueType
  period : Int
  sampleType : List PValueType
  sample : List PSample
  location : List PLocation
  function : List PFunction
  deriving DecidableEq, Repr

/-- The mutable state of `buildProfile`'s loop: the profile lists built so
far plus the two dedup maps `locs : PC ↦ Location ID` and
`funcs : frame.File+frame.Fn ↦ Function ID`. -/
structure BState where
  sample : List PSample
  location : List PLocation
  function : List PFunction
  locs : List (Nat × Nat)
  funcs : List (String × Nat)
  deriving Repr

def BState.init : BState := ⟨[], [], [], [], []⟩

/-- The body of the inner `for _, frame := range rec.stk` loop: dedup the
frame's Location by PC, creating (and registering) a Function and a
Location when the PC is unseen; returns the Location ID for the frame. -/
def addFrame (st : BState) (frame : Frame) : BState × Nat :=
  match st.locs.lookup frame.pc with
  | some lid => (st, lid)
  | none =>
    let fr : BState × Nat :=
      match st.funcs.lookup (frame.file ++ frame.fn) with
      | some fid => (st, fid)
      | none =>
        let fid := st.function.length + 1
        ({ st with
            function := st.function ++ [⟨fid, frame.fn, frame.fn, frame.file⟩],
            funcs := st.funcs ++ [(frame.file ++ frame.fn, fid)] }, fid)
    let lid := fr.1.location.length + 1
    ({ fr.1 with
        location := fr.1.location ++ [⟨lid, frame.pc, [⟨fr.2, frame.line⟩]⟩],
        locs := fr.1.locs ++ [(frame.pc, lid)] }, lid)

/-- The inner loop over a record's stack, accumulating `sloc`. -/
def addStack : BState → List Frame → BState × List Nat
  | st, [] => (st, [])
  | st, f :: fs =>
    let p := addFrame st f
    let q := addStack p.1 fs
    (q.1, p.2 :: q.2)

/-- One iteration of the outer `for _, rec := range prof` loop: build the
record's Location list and append its Sample. -/
def addRecord (st : BState) (r : Record) : BState :=
  let p := addStack st r.stk
  { p.1 with sample := p.1.sample ++ [⟨[(r.n : Int), r.time], p.2⟩] }

def buildState (prof : List (Nat × Record)) : BState :=
  prof.foldl (fun st p => addRecord st p.2) BState.init

/-- `buildProfile` from pprof.go. The Go map `prof` is embedded as an
association list; its iteration order is the list order (the Go map order
is unspecified, so every claim proved below is either order-insensitive or
explicitly about this determinization). -/
def buildProfile (prof : List (Nat × Record)) : PProfile :=
  let st := buildState prof
  { periodType := ⟨"trace", "count"⟩
    period := 1
    sampleType := [⟨"contentions", "count"⟩, ⟨"delay", "nanoseconds"⟩]
    sample := st.sample
    location := st.location
    function := st.function }

/-- The four category pipelines, aggregation composed with the builder
(` pprofIO`, `pprofBlock`, `pprofSyscall`, `pprofSched` minus the I/O and
`parseEvents`/filter plumbing around them). -/
def pprofIOProf (goroutines : Option (List Nat)) (events : List Event) : PProfile :=
  buildProfile (pprofFold ioTypeOk goroutines events)

def pprofBlock (goroutines : Option (List Nat)) (events : List Event) : PProfile :=
  buildProfile (pprofFold blockTypeOk goroutines events)

def pprofSyscall (goroutines : Option (List Nat)) (events : List Event) : PProfile :=
  buildProfile (pprofFold syscallTypeOk goroutines events)

def pprofSched (goroutines : Option (List Nat)) (events : List Event) : PProfile :=
  buildProfile (pprofFold schedTypeOk goroutines events)

/-- C1: for every event sequence, every goroutine filter and each of the
four profile categories, events with a null link, a zero stack id or an
empty stack never contribute to any `Record`: deleting all such events
from the input leaves the aggregation result unchanged (so no record is
created, no count incremented and no duration added on their behalf). -/
theorem structurally_bad_events_never_contribute
    (goroutines : Option (List Nat)) (events : List Event) :
    pprofFold ioTypeOk goroutines events
        = pprofFold ioTypeOk goroutines (events.filter structOk)
    ∧ pprofFold blockTypeOk goroutines events
        = pprofFold blockTypeOk goroutines (events.filter structOk)
    ∧ pprofFold syscallTypeOk goroutines events
        = pprofFold syscallTypeOk goroutines (events.filter structOk)
    ∧ pprofFold schedTypeOk goroutines events
        = pprofFold schedTypeOk goroutines (events.filter structOk) :=
  ⟨pprofFold_filter_structOk _ _ _ _, pprofFold_filter_structOk _ _ _ _,
   pprofFold_filter_structOk _ _ _ _, pprofFold_filter_structOk _ _ _ _⟩

/-! ### C2: the concrete two-event scenario -/

def frameC2 : Frame := ⟨4096, "main.worker", "main.go", 10⟩

/-- First qualifying event: network block at t=0, unblocked at t=100,
stack id 42. -/
def evC2a : Event := ⟨.EvGoBlockNet, 1, 0, some 100, 42, [frameC2]⟩

/-- Second qualifying event: network block at t=50, unblocked at t=200
(duration 150), stack id 42. -/
def evC2b : Event := ⟨.EvGoBlockNet, 1, 50, some 200, 42, [frameC2]⟩

/-- C2: two qualifying events sharing stack id 42 with durations 100ns and
150ns and no goroutine filter produce a single record for id 42 with count
2 and cumulative duration 250ns, and the built profile has exactly one
sample, whose values are [2, 250]. -/
theorem two_equal_stack_events_aggregate :
    pprofFold ioTypeOk none [evC2a, evC2b] = [(42, ⟨[frameC2], 2, 250⟩)]
    ∧ (pprofIOProf none [evC2a, evC2b]).sample.map PSample.value = [[2, 250]] := by
  decide

/-! ### Builder invariants (C3, C5, C9) -/

/-- All frames of all record stacks, in processing order. -/
def allFrames (prof : List (Nat × Record)) : List Frame :=
  (prof.map (fun p => p.2.stk)).flatten

/-- The composite dedup key `frame.File + frame.Fn` the builder uses. -/
def frameConcat (f : Frame) : String := f.file ++ f.fn

/-- The three `addFrame` equations, one per dedup outcome. -/
theorem addFrame_hit {st : BState} {f : Frame} {lid : Nat}
    (h : st.locs.lookup f.pc = some lid) : addFrame st f = (st, lid) := by
  simp only [addFrame, h]

theorem addFrame_miss_funcHit {st : BState} {f : Frame} {fid : Nat}
    (h : st.locs.lookup f.pc = none)
    (h2 : st.funcs.lookup (f.file ++ f.fn) = some fid) :
    addFrame st f =
      ({ st with
          location := st.location
            ++ [⟨st.location.length + 1, f.pc, [⟨fid, f.line⟩]⟩],
          locs := st.locs ++ [(f.pc, st.location.length + 1)] },
       st.location.length + 1) := by
  simp only [addFrame, h, h2]

theorem addFrame_miss_funcMiss {st : BState} {f : Frame}
    (h : st.locs.lookup f.pc = none)
    (h2 : st.funcs.lookup (f.file ++ f.fn) = none) :
    addFrame st f =
      ({ st with
          function := st.function
            ++ [⟨st.function.length + 1, f.fn, f.fn, f.file⟩],
          funcs := st.funcs ++ [(f.file ++ f.fn, st.function.length + 1)],
          location := st.location
            ++ [⟨st.location.length + 1, f.pc, [⟨st.function.length + 1, f.line⟩]⟩],
          locs := st.locs ++ [(f.pc, st.location.length + 1)] },
       st.location.length + 1) := by
  simp only [addFrame, h, h2]

/-- `st'` extends `st`: the profile lists only grow at the end and every
dedup-map binding persists. -/
structure BExt (st st' : BState) : Prop where
  loc : ∃ t, st'.location = st.location ++ t
  fnc : ∃ t, st'.function = st.function ++ t
  smp : ∃ t, st'.sample = st.sample ++ t
  lkl : ∀ pc lid, st.locs.lookup pc = some lid → st'.locs.lookup pc = some lid
  lkf : ∀ key fid, st.funcs.lookup key = some fid → st'.funcs.lookup key = some fid

theorem BExt.refl (st : BState) : BExt st st :=
  ⟨⟨[], by simp⟩, ⟨[], by simp⟩, ⟨[], by simp⟩, fun _ _ h => h, fun _ _ h => h⟩

theorem BExt.comp {s1 s2 s3 : BState} (h1 : BExt s1 s2) (h2 : BExt s2 s3) :
    BExt s1 s3 := by
  obtain ⟨⟨t1, e1⟩, ⟨t2, e2⟩, ⟨t3, e3⟩, hl, hf⟩ := h1
  obtain ⟨⟨u1, g1⟩, ⟨u2, g2⟩, ⟨u3, g3⟩, gl, gf⟩ := h2
  exact ⟨⟨t1 ++ u1, by rw [g1, e1, List.append_assoc]⟩,
    ⟨t2 ++ u2, by rw [g2, e2, List.append_assoc]⟩,
    ⟨t3 ++ u3, by rw [g3, e3, List.append_assoc]⟩,
    fun pc lid h => gl _ _ (hl _ _ h),
    fun key fid h => gf _ _ (hf _ _ h)⟩

/-- The builder-state invariant maintained by `buildProfile`'s loop. -/
structure BInv (st : BState) : Prop where
  len_loc : st.location.length = st.locs.length
  len_fn : st.function.length = st.funcs.length
  loc_ids : ∀ i (h : i < st.location.length), (st.location.get ⟨i, h⟩).id = i + 1
  fn_ids : ∀ i (h : i < st.function.length), (st.function.get ⟨i, h⟩).id = i + 1
  locs_nodup : (st.locs.map Prod.fst).Nodup
  funcs_nodup : (st.funcs.map Prod.fst).Nodup
  locs_sound : ∀ pc lid, st.locs.lookup pc = some lid →
      ∃ loc ∈ st.location, loc.id = lid ∧ loc.address = pc
  funcs_sound : ∀ key fid, st.funcs.lookup key = some fid →
      ∃ fn ∈ st.function, fn.id = fid
  line_sound : ∀ loc ∈ st.location, ∀ ln ∈ loc.line,
      ∃ fn ∈ st.function, fn.id = ln.functionId
  smp_sound : ∀ s ∈ st.sample, ∀ lid ∈ s.locationIds,
      ∃ loc ∈ st.location, loc.id = lid

theorem BInv.init : BInv BState.init := by
  refine ⟨rfl, rfl, ?_, ?_, ?_, ?_, ?_, ?_, ?_, ?_⟩ <;> simp [BState.init]

/-- Appending one element: old indices read the old list. -/
theorem get_append_sing {α : Type} (l : List α) (x : α) (i : Nat)
    (h' : i < (l ++ [x]).length) :
    (l ++ [x]).get ⟨i, h'⟩ = if h : i < l.length then l.get ⟨i, h⟩ else x := by
  by_cases h : i < l.length
  · rw [dif_pos h]
    simp [List.get_eq_getElem, List.getElem_append_left h]
  · rw [dif_neg h]
    have hlen : i = l.length := by
      simp only [List.length_append, List.length_singleton] at h'
      omega
    subst hlen
    simp [List.get_eq_getElem, List.getElem_concat_length]

theorem addFrame_spec (st : BState) (f : Frame) (hinv : BInv st) :
    BInv (addFrame st f).1
    ∧ BExt st (addFrame st f).1
    ∧ (addFrame st f).1.locs.lookup f.pc = some (addFrame st f).2
    ∧ (addFrame st f).1.sample = st.sample := by
  cases hlk : st.locs.lookup f.pc with
  | some lid =>
    rw [addFrame_hit hlk]
    exact ⟨hinv, BExt.refl st, hlk, rfl⟩
  | none =>
    have hbody : ∀ (st1 : BState) (fid : Nat), BInv st1 → BExt st st1 →
        st1.locs = st.locs → st1.location = st.location →
        st1.sample = st.sample →
        st1.funcs.lookup (f.file ++ f.fn) = some fid →
        BInv { st1 with
            location := st1.location
              ++ [⟨st1.location.length + 1, f.pc, [⟨fid, f.line⟩]⟩],
            locs := st1.locs ++ [(f.pc, st1.location.length + 1)] }
        ∧ BExt st { st1 with
            location := st1.location
              ++ [⟨st1.location.length + 1, f.pc, [⟨fid, f.line⟩]⟩],
            locs := st1.locs ++ [(f.pc, st1.location.length + 1)] }
        ∧ ((st1.locs ++ [(f.pc, st1.location.length + 1)]).lookup f.pc
            = some (st1.location.length + 1))
        ∧ st1.sample = st.sample := by
      intro st1 fid hinv1 hext1 hlocs1 hloc1 hsmp1 hfid
      have hlk1 : st1.locs.lookup f.pc = none := by rw [hlocs1]; exact hlk
      have hfresh := lookup_append_fresh f.pc f.pc
        (st1.location.length + 1) st1.locs hlk1
      rw [if_pos rfl] at hfresh
      refine ⟨⟨?_, hinv1.len_fn, ?_, hinv1.fn_ids, ?_, hinv1.funcs_nodup,
          ?_, hinv1.funcs_sound, ?_, ?_⟩, ?_, hfresh, hsmp1⟩
      · simp [hinv1.len_loc]
      · intro i h
        rw [get_append_sing]
        by_cases hi : i < st1.location.length
        · rw [dif_pos hi]
          exact hinv1.loc_ids i hi
        · rw [dif_neg hi]
          have : i = st1.location.length := by
            simp only [List.length_append, List.length_singleton] at h
            omega
          simp [this]
      · rw [List.map_append]
        simp only [List.map_cons, List.map_nil]
        rw [List.nodup_append]
        refine ⟨hinv1.locs_nodup, List.nodup_singleton _, ?_⟩
        intro a ha hb
        rcases List.mem_singleton.mp hb with rfl
        exact not_mem_keys_of_lookup_eq_none _ _ hlk1 ha
      · intro pc lid hl
        rw [lookup_append_fresh _ _ _ _ hlk1] at hl
        by_cases hpc : pc = f.pc
        · rw [if_pos hpc] at hl
          obtain rfl : st1.location.length + 1 = lid := by injection hl
          refine ⟨⟨st1.location.length + 1, f.pc, [⟨fid, f.line⟩]⟩, ?_, rfl, hpc ▸ rfl⟩
          simp
        · rw [if_neg hpc] at hl
          obtain ⟨loc, hm, hid, haddr⟩ := hinv1.locs_sound pc lid hl
          exact ⟨loc, List.mem_append_left _ hm, hid, haddr⟩
      · intro loc hm ln hln
        rcases List.mem_append.mp hm with hm | hm
        · exact hinv1.line_sound loc hm ln hln
        · rcases List.mem_singleton.mp hm with rfl
          rcases List.mem_singleton.mp hln with rfl
          exact hinv1.funcs_sound _ _ hfid
      · intro s hs lid hlid
        obtain ⟨loc, hm, hid⟩ := hinv1.smp_sound s (hsmp1 ▸ hs) lid hlid
        exact ⟨loc, List.mem_append_left _ (hloc1 ▸ hm), hid⟩
      · refine BExt.comp hext1 ⟨⟨_, rfl⟩, ⟨[], by simp⟩, ⟨[], by simp⟩, ?_, fun _ _ h => h⟩
        intro pc lid hl
        rw [lookup_append_fresh _ _ _ _ hlk1]
        rw [if_neg ?_]
        · exact hl
        · intro he
          rw [he] at hl
          rw [hlk1] at hl
          cases hl
    cases hfk : st.funcs.lookup (f.file ++ f.fn) with
    | some fid =>
      rw [addFrame_miss_funcHit hlk hfk]
      exact hbody st fid hinv (BExt.refl st) rfl rfl rfl hfk
    | none =>
      rw [addFrame_miss_funcMiss hlk hfk]
      have hinv1 : BInv { st with
          function := st.function
            ++ [⟨st.function.length + 1, f.fn, f.fn, f.file⟩],
          funcs := st.funcs ++ [(f.file ++ f.fn, st.function.length + 1)] } := by
        refine ⟨hinv.len_loc, by simp [hinv.len_fn], hinv.loc_ids, ?_,
          hinv.locs_nodup, ?_, ?_, ?_, ?_, ?_⟩
        · intro i h
          rw [get_append_sing]
          by_cases hi : i < st.function.length
          · rw [dif_pos hi]
            exact hinv.fn_ids i hi
          · rw [dif_neg hi]
            have : i = st.function.length := by
              simp only [List.length_append, List.length_singleton] at h
              omega
            simp [this]
        · rw [List.map_append]
          simp only [List.map_cons, List.map_nil]
          rw [List.nodup_append]
          refine ⟨hinv.funcs_nodup, List.nodup_singleton _, ?_⟩
          intro a ha hb
          rcases List.mem_singleton.mp hb with rfl
          exact not_mem_keys_of_lookup_eq_none _ _ hfk ha
        · intro pc lid hl
          obtain ⟨loc, hm, hid, haddr⟩ := hinv.locs_sound pc lid hl
          exact ⟨loc, hm, hid, haddr⟩
        · intro key fid hl
          rw [lookup_append_fresh _ _ _ _ hfk] at hl
          by_cases hkey : key = f.file ++ f.fn
          · rw [if_pos hkey] at hl
            obtain rfl : st.function.length + 1 = fid := by injection hl
            exact ⟨⟨st.function.length + 1, f.fn, f.fn, f.file⟩, by simp, rfl⟩
          · rw [if_neg hkey] at hl
            obtain ⟨fn, hm, hid⟩ := hinv.funcs_sound key fid hl
            exact ⟨fn, List.mem_append_left _ hm, hid⟩
        · intro loc hm ln hln
          obtain ⟨fn, hfm, hid⟩ := hinv.line_sound loc hm ln hln
          exact ⟨fn, List.mem_append_left _ hfm, hid⟩
        · intro s hs lid hlid
          exact hinv.smp_sound s hs lid hlid
      have hext1 : BExt st { st with
          function := st.function
            ++ [⟨st.function.length + 1, f.fn, f.fn, f.file⟩],
          funcs := st.funcs ++ [(f.file ++ f.fn, st.function.length + 1)] } := by
        refine ⟨⟨[], by simp⟩, ⟨_, rfl⟩, ⟨[], by simp⟩, fun _ _ h => h, ?_⟩
        intro key fid hl
        rw [lookup_append_fresh _ _ _ _ hfk, if_neg ?_]
        · exact hl
        · intro he
          rw [he, hfk] at hl
          cases hl
      have hfid1 : ({ st with
          function := st.function
            ++ [⟨st.function.length + 1, f.fn, f.fn, f.file⟩],
          funcs := st.funcs
            ++ [(f.file ++ f.fn, st.function.length + 1)] } : BState).funcs.lookup
            (f.file ++ f.fn) = some (st.function.length + 1) := by
        have h := lookup_append_fresh (f.file ++ f.fn) (f.file ++ f.fn)
          (st.function.length + 1) st.funcs hfk
        rw [if_pos rfl] at h
        exact h
      exact hbody _ (st.function.length + 1) hinv1 hext1 rfl rfl rfl hfid1

theorem forall₂_mem_right {α β : Type} {R : α → β → Prop} :
    ∀ {l1 : List α} {l2 : List β}, List.Forall₂ R l1 l2 →
      ∀ b ∈ l2, ∃ a ∈ l1, R a b := by
  intro l1 l2 h
  induction h with
  | nil => intro b hb; cases hb
  | cons hr _ ih =>
    intro b hb
    rcases List.mem_cons.mp hb with rfl | hb
    · exact ⟨_, List.mem_cons_self _ _, hr⟩
    · obtain ⟨a, ha, hab⟩ := ih b hb
      exact ⟨a, List.mem_cons_of_mem _ ha, hab⟩

theorem addStack_spec (frames : List Frame) : ∀ (st : BState), BInv st →
    BInv (addStack st frames).1
    ∧ BExt st (addStack st frames).1
    ∧ (addStack st frames).1.sample = st.sample
    ∧ List.Forall₂
        (fun fr lid => (addStack st frames).1.locs.lookup fr.pc = some lid)
        frames (addStack st frames).2 := by
  induction frames with
  | nil =>
    intro st hinv
    exact ⟨hinv, BExt.refl st, rfl, List.Forall₂.nil⟩
  | cons f fs ih =>
    intro st hinv
    obtain ⟨hinv1, hext1, hlk1, hsmp1⟩ := addFrame_spec st f hinv
    obtain ⟨hinv2, hext2, hsmp2, hrel⟩ := ih (addFrame st f).1 hinv1
    have heq1 : (addStack st (f :: fs)).1 = (addStack (addFrame st f).1 fs).1 := rfl
    have heq2 : (addStack st (f :: fs)).2
        = (addFrame st f).2 :: (addStack (addFrame st f).1 fs).2 := rfl
    rw [heq1, heq2]
    exact ⟨hinv2, BExt.comp hext1 hext2, by rw [hsmp2, hsmp1],
      List.Forall₂.cons (hext2.lkl _ _ hlk1) hrel⟩

theorem addRecord_spec (st : BState) (r : Record) (hinv : BInv st) :
    BInv (addRecord st r)
    ∧ BExt st (addRecord st r)
    ∧ (addRecord st r).sample
        = st.sample ++ [⟨[(r.n : Int), r.time], (addStack st r.stk).2⟩]
    ∧ List.Forall₂
        (fun fr lid => (addRecord st r).locs.lookup fr.pc = some lid)
        r.stk (addStack st r.stk).2 := by
  obtain ⟨hinv1, hext1, hsmp1, hrel⟩ := addStack_spec r.stk st hinv
  have heq : addRecord st r = { (addStack st r.stk).1 with
      sample := (addStack st r.stk).1.sample
        ++ [⟨[(r.n : Int), r.time], (addStack st r.stk).2⟩] } := rfl
  rw [heq]
  refine ⟨⟨hinv1.len_loc, hinv1.len_fn, hinv1.loc_ids, hinv1.fn_ids,
      hinv1.locs_nodup, hinv1.funcs_nodup, hinv1.locs_sound, hinv1.funcs_sound,
      hinv1.line_sound, ?_⟩, ?_, by rw [hsmp1], hrel⟩
  · intro s hs lid hlid
    rcases List.mem_append.mp hs with hs | hs
    · exact hinv1.smp_sound s hs lid hlid
    · rcases List.mem_singleton.mp hs with rfl
      obtain ⟨fr, _, hfr⟩ := forall₂_mem_right hrel lid hlid
      obtain ⟨loc, hm, hid, _⟩ := hinv1.locs_sound fr.pc lid hfr
      exact ⟨loc, hm, hid⟩
  · refine BExt.comp hext1 ⟨⟨[], by simp⟩, ⟨[], by simp⟩, ⟨_, rfl⟩,
      fun _ _ h => h, fun _ _ h => h⟩

theorem buildState_go (rs : List (Nat × Record)) :
    ∀ (st : BState), BInv st →
      BInv (rs.foldl (fun st p => addRecord st p.2) st)
      ∧ BExt st (rs.foldl (fun st p => addRecord st p.2) st)
      ∧ ∃ news,
          (rs.foldl (fun st p => addRecord st p.2) st).sample = st.sample ++ news
          ∧ List.Forall₂ (fun (pr : Nat × Record) (s : PSample) =>
              s.value = [(pr.2.n : Int), pr.2.time]
              ∧ List.Forall₂ (fun fr lid =>
                  (rs.foldl (fun st p => addRecord st p.2) st).locs.lookup fr.pc
                    = some lid)
                pr.2.stk s.locationIds) rs news := by
  induction rs with
  | nil =>
    intro st hinv
    exact ⟨hinv, BExt.refl st, [], by simp, List.Forall₂.nil⟩
  | cons pr rest ih =>
    intro st hinv
    obtain ⟨hinv1, hext1, hsmp1, hrel1⟩ := addRecord_spec st pr.2 hinv
    obtain ⟨hinv2, hext2, news', hsmp2, hrel2⟩ := ih (addRecord st pr.2) hinv1
    rw [List.foldl_cons]
    refine ⟨hinv2, BExt.comp hext1 hext2,
      ⟨[⟨[(pr.2.n : Int), pr.2.time], (addStack st pr.2.stk).2⟩] ++ news', ?_, ?_⟩⟩
    · rw [hsmp2, hsmp1, List.append_assoc]
    · refine List.Forall₂.cons ⟨rfl, ?_⟩ hrel2
      exact hrel1.imp (fun fr lid h => hext2.lkl _ _ h)

/-- C9: the built profile has one sample per aggregation record, in
order. Each sample's value list is exactly [occurrence count, cumulative
duration]; its Location-reference list has exactly one entry per frame of
the record's stack, in frame order; references are a function `m` of the
frame's program counter alone (so frames with equal PCs reference the
same Location entry, across all samples), and each referenced entry is a
Location of the profile whose address is that frame's PC. -/
theorem sample_per_record_shape (prof : List (Nat × Record)) :
    ∃ m : List (Nat × Nat),
      List.Forall₂ (fun (pr : Nat × Record) (s : PSample) =>
        s.value = [(pr.2.n : Int), pr.2.time]
        ∧ List.Forall₂ (fun (fr : Frame) (lid : Nat) =>
            m.lookup fr.pc = some lid
            ∧ ∃ loc ∈ (buildProfile prof).location,
                loc.id = lid ∧ loc.address = fr.pc)
          pr.2.stk s.locationIds)
      prof (buildProfile prof).sample := by
  obtain ⟨hinv, _, news, hsmp, hrel⟩ := buildState_go prof BState.init BInv.init
  refine ⟨(buildState prof).locs, ?_⟩
  have hps : (buildProfile prof).sample = news := by
    show (buildState prof).sample = news
    rw [show buildState prof = prof.foldl (fun st p => addRecord st p.2) BState.init
        from rfl, hsmp]
    rfl
  rw [hps]
  refine hrel.imp (fun pr s h => ⟨h.1, h.2.imp (fun fr lid hl => ⟨hl, ?_⟩)⟩)
  exact hinv.locs_sound fr.pc lid hl

/-- In a list whose `i`-th element carries id `i + 1`, each occurring id
identifies exactly one element. -/
theorem count_id_one {α : Type} [DecidableEq α] (idOf : α → Nat) (l : List α)
    (hids : ∀ i (h : i < l.length), idOf (l.get ⟨i, h⟩) = i + 1)
    {x : α} (hx : x ∈ l) :
    (l.filter (fun y => idOf y == idOf x)).length = 1 := by
  have hmap : l.map idOf = List.range' 1 l.length := by
    apply List.ext_getElem
    · simp
    · intro i h1 h2
      rw [List.getElem_map, List.getElem_range']
      have := hids i (by simpa using h1)
      rw [List.get_eq_getElem] at this
      rw [this]
      omega
  have hcnt : (l.filter (fun y => idOf y == idOf x)).length
      = (l.map idOf).count (idOf x) := by
    rw [List.count, List.countP_map]
    rw [← List.countP_eq_length_filter]
    rfl
  rw [hcnt, hmap]
  refine List.count_eq_one_of_mem (List.nodup_range' _ _) ?_
  rw [← hmap]
  exact List.mem_map.mpr ⟨x, hx, rfl⟩

/-- C5: in every built profile, IDs are assigned sequentially from 1 in
first-creation order — the k-th Location has ID k and the k-th Function
has ID k — every Location ID referenced by a sample identifies exactly
one entry of the Location list, and every Function ID referenced by a
Location's line identifies exactly one entry of the Function list. -/
theorem profile_id_assignment (prof : List (Nat × Record)) :
    (∀ i (h : i < (buildProfile prof).location.length),
        ((buildProfile prof).location.get ⟨i, h⟩).id = i + 1)
    ∧ (∀ i (h : i < (buildProfile prof).function.length),
        ((buildProfile prof).function.get ⟨i, h⟩).id = i + 1)
    ∧ (∀ s ∈ (buildProfile prof).sample, ∀ lid ∈ s.locationIds,
        ((buildProfile prof).location.filter
          (fun loc => loc.id == lid)).length = 1)
    ∧ (∀ loc ∈ (buildProfile prof).location, ∀ ln ∈ loc.line,
        ((buildProfile prof).function.filter
          (fun fn => fn.id == ln.functionId)).length = 1) := by
  obtain ⟨hinv, _, _⟩ := buildState_go prof BState.init BInv.init
  have hloc : (buildProfile prof).location = (buildState prof).location := rfl
  have hfn : (buildProfile prof).function = (buildState prof).function := rfl
  have hsmp : (buildProfile prof).sample = (buildState prof).sample := rfl
  have hinv' : BInv (buildState prof) := hinv
  refine ⟨?_, ?_, ?_, ?_⟩
  · rw [hloc]
    exact hinv'.loc_ids
  · rw [hfn]
    exact hinv'.fn_ids
  · intro s hs lid hlid
    rw [hsmp] at hs
    obtain ⟨loc, hm, hid⟩ := hinv'.smp_sound s hs lid hlid
    rw [hloc, ← hid]
    exact count_id_one PLocation.id _ hinv'.loc_ids hm
  · intro loc hm ln hln
    rw [hloc] at hm
    obtain ⟨fn, hfm, hid⟩ := hinv'.line_sound loc hm ln hln
    rw [hfn, ← hid]
    exact count_id_one PFunction.id _ hinv'.fn_ids hfm

/-- A one-record input for the C5 witness. -/
def profC5 : List (Nat × Record) := [(1, ⟨[⟨10, "f", "g.go", 1⟩], 1, 2⟩)]

/-- Witness for C5 on a concrete one-record profile. -/
theorem profile_id_assignment_witness :
    ((buildProfile profC5).location.get ⟨0, by decide⟩).id = 0 + 1
    ∧ ((buildProfile profC5).function.get ⟨0, by decide⟩).id = 0 + 1
    ∧ ((buildProfile profC5).location.filter
        (fun loc => loc.id == 1)).length = 1
    ∧ ((buildProfile profC5).function.filter
        (fun fn => fn.id == 1)).length = 1 :=
  ⟨(profile_id_assignment profC5).1 0 (by decide),
   (profile_id_assignment profC5).2.1 0 (by decide),
   (profile_id_assignment profC5).2.2.1 ⟨[1, 2], [1]⟩ (by decide) 1 (by decide),
   (profile_id_assignment profC5).2.2.2 ⟨1, 10, [⟨1, 1⟩]⟩ (by decide) ⟨1, 1⟩
     (by decide)⟩

/-! ### Counting Locations and Functions (C3) -/

/-- Keys of the PC → Location-ID dedup map. -/
def locKeys (st : BState) : List Nat := st.locs.map Prod.fst

/-- Keys of the `file+fn` → Function-ID dedup map. -/
def funKeys (st : BState) : List String := st.funcs.map Prod.fst

/-- Frames whose PCs coincide carry the same composite key. -/
def PCConsistent (l : List Frame) : Prop :=
  ∀ f1 ∈ l, ∀ f2 ∈ l, f1.pc = f2.pc → frameConcat f1 = frameConcat f2

/-- After processing `processed`, the dedup maps hold exactly the PCs
and the composite keys seen. -/
def KeysRel (st : BState) (processed : List Frame) : Prop :=
  (locKeys st).toFinset = (processed.map Frame.pc).toFinset
  ∧ (funKeys st).toFinset = (processed.map frameConcat).toFinset

theorem addFrame_locKeys (st : BState) (f : Frame) :
    (locKeys (addFrame st f).1).toFinset = insert f.pc (locKeys st).toFinset := by
  cases hlk : st.locs.lookup f.pc with
  | some lid =>
    rw [addFrame_hit hlk]
    have hmem : f.pc ∈ locKeys st :=
      List.mem_map.mpr ⟨(f.pc, lid), mem_of_lookup_eq_some _ hlk, rfl⟩
    exact (Finset.insert_eq_self.mpr (List.mem_toFinset.mpr hmem)).symm
  | none =>
    cases hfk : st.funcs.lookup (f.file ++ f.fn) with
    | some fid =>
      rw [addFrame_miss_funcHit hlk hfk]
      show ((st.locs ++ [(f.pc, st.location.length + 1)]).map Prod.fst).toFinset = _
      rw [List.map_append, List.toFinset_append]
      simp [locKeys, Finset.union_comm, (Finset.insert_eq _ _).symm]
    | none =>
      rw [addFrame_miss_funcMiss hlk hfk]
      show ((st.locs ++ [(f.pc, st.location.length + 1)]).map Prod.fst).toFinset = _
      rw [List.map_append, List.toFinset_append]
      simp [locKeys, Finset.union_comm, (Finset.insert_eq _ _).symm]

theorem addFrame_funKeys (st : BState) (f : Frame)
    (hc : f.pc ∈ locKeys st → frameConcat f ∈ funKeys st) :
    (funKeys (addFrame st f).1).toFinset
      = insert (frameConcat f) (funKeys st).toFinset := by
  cases hlk : st.locs.lookup f.pc with
  | some lid =>
    rw [addFrame_hit hlk]
    have hmem : f.pc ∈ locKeys st :=
      List.mem_map.mpr ⟨(f.pc, lid), mem_of_lookup_eq_some _ hlk, rfl⟩
    exact (Finset.insert_eq_self.mpr (List.mem_toFinset.mpr (hc hmem))).symm
  | none =>
    cases hfk : st.funcs.lookup (f.file ++ f.fn) with
    | some fid =>
      rw [addFrame_miss_funcHit hlk hfk]
      have hmem : frameConcat f ∈ funKeys st :=
        List.mem_map.mpr ⟨(f.file ++ f.fn, fid), mem_of_lookup_eq_some _ hfk, rfl⟩
      exact (Finset.insert_eq_self.mpr (List.mem_toFinset.mpr hmem)).symm
    | none =>
      rw [addFrame_miss_funcMiss hlk hfk]
      show ((st.funcs ++ [(f.file ++ f.fn, st.function.length + 1)]).map
          Prod.fst).toFinset = _
      rw [List.map_append, List.toFinset_append]
      simp [funKeys, frameConcat, Finset.union_comm, (Finset.insert_eq _ _).symm]

theorem addStack_keysRel (frames : List Frame) :
    ∀ (st : BState) (processed : List Frame), BInv st → KeysRel st processed →
      PCConsistent (processed ++ frames) →
      KeysRel (addStack st frames).1 (processed ++ frames) := by
  induction frames with
  | nil =>
    intro st processed _ hrel _
    simpa using hrel
  | cons f fs ih =>
    intro st processed hinv hrel hcons
    obtain ⟨hinv1, _, _, _⟩ := addFrame_spec st f hinv
    have hc : f.pc ∈ locKeys st → frameConcat f ∈ funKeys st := by
      intro hpc
      have : f.pc ∈ (processed.map Frame.pc).toFinset := by
        rw [← hrel.1]
        exact List.mem_toFinset.mpr hpc
      obtain ⟨f', hf', hpe⟩ := List.mem_map.mp (List.mem_toFinset.mp this)
      have hcc : frameConcat f' = frameConcat f :=
        hcons f' (List.mem_append_left _ hf') f
          (List.mem_append_right _ (List.mem_cons_self _ _)) hpe
      have : frameConcat f' ∈ (processed.map frameConcat).toFinset :=
        List.mem_toFinset.mpr (List.mem_map.mpr ⟨f', hf', rfl⟩)
      rw [← hrel.2] at this
      exact hcc ▸ List.mem_toFinset.mp this
    have hrel1 : KeysRel (addFrame st f).1 (processed ++ [f]) := by
      constructor
      · rw [addFrame_locKeys st f, hrel.1, List.map_append, List.toFinset_append]
        simp [Finset.union_comm, (Finset.insert_eq _ _).symm]
      · rw [addFrame_funKeys st f hc, hrel.2, List.map_append, List.toFinset_append]
        simp [Finset.insert_eq, Finset.union_comm]
    have hstep : (addStack st (f :: fs)).1 = (addStack (addFrame st f).1 fs).1 := rfl
    rw [hstep, show processed ++ f :: fs = (processed ++ [f]) ++ fs by simp]
    exact ih (addFrame st f).1 (processed ++ [f]) hinv1 hrel1
      (by rw [List.append_assoc]; simpa using hcons)

theorem buildState_keysRel (rs : List (Nat × Record)) :
    ∀ (st : BState) (processed : List Frame), BInv st → KeysRel st processed →
      PCConsistent (processed ++ allFrames rs) →
      KeysRel (rs.foldl (fun st p => addRecord st p.2) st)
        (processed ++ allFrames rs) := by
  induction rs with
  | nil =>
    intro st processed _ hrel _
    simpa [allFrames] using hrel
  | cons pr rest ih =>
    intro st processed hinv hrel hcons
    have hall : allFrames (pr :: rest) = pr.2.stk ++ allFrames rest := by
      simp [allFrames]
    rw [List.foldl_cons, hall, show processed ++ (pr.2.stk ++ allFrames rest)
        = (processed ++ pr.2.stk) ++ allFrames rest by rw [List.append_assoc]]
    obtain ⟨hinv1, _, _, _⟩ := addRecord_spec st pr.2 hinv
    have hrel1 : KeysRel (addRecord st pr.2) (processed ++ pr.2.stk) := by
      have h := addStack_keysRel pr.2.stk st processed hinv hrel (by
        intro f1 h1 f2 h2 hpe
        refine hcons f1 ?_ f2 ?_ hpe
        · rcases List.mem_append.mp h1 with h | h
          · exact List.mem_append_left _ h
          · exact List.mem_append_right _ (by rw [hall]; exact List.mem_append_left _ h)
        · rcases List.mem_append.mp h2 with h | h
          · exact List.mem_append_left _ h
          · exact List.mem_append_right _ (by rw [hall]; exact List.mem_append_left _ h))
      exact h
    exact ih (addRecord st pr.2) (processed ++ pr.2.stk) hinv1 hrel1 (by
      intro f1 h1 f2 h2 hpe
      refine hcons f1 ?_ f2 ?_ hpe <;> rw [hall]
      · rcases List.mem_append.mp h1 with h | h
        · rcases List.mem_append.mp h with h | h
          · exact List.mem_append_left _ h
          · exact List.mem_append_right _ (List.mem_append_left _ h)
        · exact List.mem_append_right _ (List.mem_append_right _ h)
      · rcases List.mem_append.mp h2 with h | h
        · rcases List.mem_append.mp h with h | h
          · exact List.mem_append_left _ h
          · exact List.mem_append_right _ (List.mem_append_left _ h)
        · exact List.mem_append_right _ (List.mem_append_right _ h))

theorem dedup_length_map_of_inj {α β : Type} [DecidableEq α] [DecidableEq β]
    (g : α → β) (l : List α)
    (hg : ∀ x ∈ l, ∀ y ∈ l, g x = g y → x = y) :
    ((l.map g).dedup).length = l.dedup.length := by
  have himg : (l.map g).toFinset = l.toFinset.image g := by
    ext b
    simp [List.mem_toFinset, Finset.mem_image, List.mem_map]
  rw [← List.card_toFinset, ← List.card_toFinset, himg]
  exact Finset.card_image_of_injOn
    (fun x hx y hy => hg x (List.mem_toFinset.mp hx) y (List.mem_toFinset.mp hy))

/-- A record whose stack holds two frames with distinct (file, name)
pairs — ("a", "bc") and ("ab", "c") — whose concatenations collide. -/
def profC3 : List (Nat × Record) :=
  [(1, ⟨[⟨1, "bc", "a", 1⟩, ⟨2, "c", "ab", 1⟩], 1, 10⟩)]

/-- C3 counterexample: the builder dedups Functions by the concatenated
string `frame.File + frame.Fn`, so the two distinct (file, name) pairs
("a","bc") and ("ab","c") collide into one Function: the profile has 1
Function entry while the input has 2 distinct (file, name) pairs, refuting
the claimed equality (the Location half alone does hold here). -/
theorem function_pair_dedup_refuted :
    ¬((buildProfile profC3).location.length
        = ((allFrames profC3).map Frame.pc).dedup.length
      ∧ (buildProfile profC3).function.length
        = ((allFrames profC3).map (fun f => (f.file, f.fn))).dedup.length) := by
  decide

/-- The PC → Location-ID map's key set after a stack is processed: the
old keys plus the stack's PCs, with no side conditions. -/
theorem addStack_locKeys (frames : List Frame) :
    ∀ st : BState, BInv st →
      (locKeys (addStack st frames).1).toFinset
        = (locKeys st).toFinset ∪ (frames.map Frame.pc).toFinset := by
  induction frames with
  | nil =>
    intro st _
    simp [addStack]
  | cons f fs ih =>
    intro st hinv
    obtain ⟨hinv1, _, _, _⟩ := addFrame_spec st f hinv
    have hstep : (addStack st (f :: fs)).1 = (addStack (addFrame st f).1 fs).1 := rfl
    rw [hstep, ih (addFrame st f).1 hinv1, addFrame_locKeys st f]
    rw [List.map_cons, List.toFinset_cons, Finset.insert_union, Finset.union_insert]

/-- The PC → Location-ID map's key set after the whole build loop: the
PCs of every frame of every record, with no side conditions. -/
theorem buildState_locKeys (rs : List (Nat × Record)) :
    ∀ st : BState, BInv st →
      (locKeys (rs.foldl (fun st p => addRecord st p.2) st)).toFinset
        = (locKeys st).toFinset ∪ ((allFrames rs).map Frame.pc).toFinset := by
  induction rs with
  | nil =>
    intro st _
    simp [allFrames]
  | cons pr rest ih =>
    intro st hinv
    obtain ⟨hinv1, _, _, _⟩ := addRecord_spec st pr.2 hinv
    rw [List.foldl_cons, ih (addRecord st pr.2) hinv1]
    have hlr : locKeys (addRecord st pr.2) = locKeys (addStack st pr.2.stk).1 := rfl
    rw [hlr, addStack_locKeys pr.2.stk st hinv]
    have hall : allFrames (pr :: rest) = pr.2.stk ++ allFrames rest := by
      simp [allFrames]
    rw [hall, List.map_append, List.toFinset_append, Finset.union_assoc]

/-- C3 amended: the number of Location entries ALWAYS equals the number
of distinct program counters across all frames of all record stacks;
and, provided frames sharing a program counter agree on (file, name) and
the concatenation file++name does not collide across distinct pairs
occurring in the input, the number of Function entries equals the number
of distinct (file, name) pairs (the builder keys Functions by that
concatenation and consults it only for first-seen program counters). -/
theorem buildProfile_dedup_counts (prof : List (Nat × Record)) :
    (buildProfile prof).location.length
        = ((allFrames prof).map Frame.pc).dedup.length
    ∧ ((∀ f1 ∈ allFrames prof, ∀ f2 ∈ allFrames prof, f1.pc = f2.pc →
          f1.file = f2.file ∧ f1.fn = f2.fn) →
       (∀ f1 ∈ allFrames prof, ∀ f2 ∈ allFrames prof,
          frameConcat f1 = frameConcat f2 → f1.file = f2.file ∧ f1.fn = f2.fn) →
       (buildProfile prof).function.length
          = ((allFrames prof).map (fun f => (f.file, f.fn))).dedup.length) := by
  obtain ⟨hinv, _, _⟩ := buildState_go prof BState.init BInv.init
  have hinv' : BInv (buildState prof) := hinv
  constructor
  · have hkeys : (locKeys (buildState prof)).toFinset
        = ((allFrames prof).map Frame.pc).toFinset := by
      have h := buildState_locKeys prof BState.init BInv.init
      simpa [locKeys, BState.init] using h
    have h1 : (buildProfile prof).location.length
        = (buildState prof).locs.length := hinv'.len_loc
    have h2 : (buildState prof).locs.length = (locKeys (buildState prof)).length :=
      (List.length_map _ _).symm
    have h3 : (locKeys (buildState prof)).length
        = (locKeys (buildState prof)).toFinset.card :=
      (List.toFinset_card_of_nodup hinv'.locs_nodup).symm
    rw [h1, h2, h3, hkeys, List.card_toFinset]
  · intro hpc hinj
    have hrel : KeysRel (buildState prof) (allFrames prof) := by
      have h := buildState_keysRel prof BState.init []
        BInv.init
        ⟨by simp [locKeys, BState.init], by simp [funKeys, BState.init]⟩
        (by
          intro f1 h1 f2 h2 hpe
          simp only [List.nil_append] at h1 h2
          obtain ⟨he1, he2⟩ := hpc f1 h1 f2 h2 hpe
          simp [frameConcat, he1, he2])
      simpa using h
    have h1 : (buildProfile prof).function.length
        = (buildState prof).funcs.length := hinv'.len_fn
    have h2 : (buildState prof).funcs.length = (funKeys (buildState prof)).length :=
      (List.length_map _ _).symm
    have h3 : (funKeys (buildState prof)).length
        = (funKeys (buildState prof)).toFinset.card :=
      (List.toFinset_card_of_nodup hinv'.funcs_nodup).symm
    rw [h1, h2, h3, hrel.2, List.card_toFinset]
    have hmm : (allFrames prof).map frameConcat
        = ((allFrames prof).map (fun f => (f.file, f.fn))).map
            (fun q => q.1 ++ q.2) := by
      rw [List.map_map]
      rfl
    rw [hmm]
    apply dedup_length_map_of_inj
    intro q1 hq1 q2 hq2 he
    obtain ⟨g1, hg1, rfl⟩ := List.mem_map.mp hq1
    obtain ⟨g2, hg2, rfl⟩ := List.mem_map.mp hq2
    obtain ⟨ha, hb⟩ := hinj g1 hg1 g2 hg2 (by simpa [frameConcat] using he)
    simp [ha, hb]

/-- A collision-free two-frame input for the C3 witness. -/
def profC3w : List (Nat × Record) :=
  [(1, ⟨[⟨1, "m", "a.go", 1⟩, ⟨2, "n", "b.go", 2⟩, ⟨1, "m", "a.go", 1⟩], 2, 7⟩)]

/-- Witness for the amended C3 on a concrete consistent input,
discharging the two side conditions of the Function half. -/
theorem buildProfile_dedup_counts_witness :
    (buildProfile profC3w).location.length
        = ((allFrames profC3w).map Frame.pc).dedup.length
    ∧ (buildProfile profC3w).function.length
        = ((allFrames profC3w).map (fun f => (f.file, f.fn))).dedup.length :=
  ⟨(buildProfile_dedup_counts profC3w).1,
   (buildProfile_dedup_counts profC3w).2 (by decide) (by decide)⟩

end TracePprof
